import Mathlib

set_option linter.unusedVariables false

/-!
Verification of the `run` package of weblfe/gotype (run/run.go).

Strings are modelled as `List Char`. Go's `strings.EqualFold` is modelled as
equality after ASCII lower-casing (`Char.toLower`); every constant compared
this way in the source is lowercase ASCII. Go's `strings.Contains` is the
case-sensitive contiguous-substring test. Go's `strings.Split` (with a
non-empty separator) is modelled by `splitOnSub`. A Go runtime panic
(out-of-range slice index) is modelled as `Except.error ()`.

The subprocess call `command.Output()` is modelled by an oracle value of type
`Option (List Char)`: `none` when the invocation fails to execute or exits
with an error, `some bytes` for a successful run producing `bytes` on stdout.
The filesystem operations used by `Runner.Bind` (`filepath.Abs`, `os.Stat`)
are likewise oracles packaged in `BindFS`.
-/

-- ### String primitives (strings.ToLower / EqualFold / Contains / Split)

/-- ASCII lower-casing of a string, modelling `strings.ToLower` on the ASCII
constants used by the source. -/
def toLowerStr (s : List Char) : List Char := s.map Char.toLower

/-- Go `strings.EqualFold`, modelled as ASCII-case-insensitive equality. -/
def equalFold (a b : List Char) : Bool := toLowerStr a == toLowerStr b

/-- Go `strings.Contains s sub`: `sub` occurs contiguously in `s`. -/
def containsSub (s sub : List Char) : Bool :=
  sub.isPrefixOf s ||
    match s with
    | [] => false
    | _ :: rest => containsSub rest sub

/-- One step of Go `strings.Split`: locate the leftmost occurrence of `sep`,
returning the segment before it and the remainder after it. -/
def breakOnSub (sep : List Char) : List Char → Option (List Char × List Char)
  | [] => none
  | c :: rest =>
    if sep.isPrefixOf (c :: rest) then some ([], (c :: rest).drop sep.length)
    else
      match breakOnSub sep rest with
      | none => none
      | some (pre, post) => some (c :: pre, post)

/-- Fuelled worker for `splitOnSub`; each recursive step strictly shortens the
remaining string when `sep` is non-empty, so `s.length + 1` fuel suffices. -/
def splitOnSubAux (sep : List Char) : Nat → List Char → List (List Char)
  | 0, s => [s]
  | fuel + 1, s =>
    match breakOnSub sep s with
    | none => [s]
    | some (pre, post) => pre :: splitOnSubAux sep fuel post

/-- Go `strings.Split s sep` for a non-empty separator: split `s` around each
non-overlapping occurrence of `sep`, scanning left to right. -/
def splitOnSub (sep s : List Char) : List (List Char) :=
  splitOnSubAux sep (s.length + 1) s

/-- Whitespace predicate of `strings.TrimSpace`, restricted to ASCII space
characters (the only ones the modelled outputs contain). -/
def isSpaceChar (c : Char) : Bool :=
  c = ' ' || c = '\t' || c = '\n' || c = '\x0B' || c = '\x0C' || c = '\r'

/-- Go `strings.TrimSpace`. -/
def trimSpace (s : List Char) : List Char :=
  ((s.dropWhile isSpaceChar).reverse.dropWhile isSpaceChar).reverse

-- ### The Category data model (commandType, types, typesMatches)

/-- The `commandType` enumeration of run.go. -/
inductive CommandType where
  | TypeAlias
  | TypeKeyword
  | TypeFunction
  | TypeBuiltin
  | TypeFile
  | TypeUnFound
deriving DecidableEq, Repr

/-- `commandType.String()`: the canonical name of each category. -/
def CommandType.str : CommandType → List Char
  | .TypeAlias => ("alias").data
  | .TypeKeyword => ("keyword").data
  | .TypeFunction => ("function").data
  | .TypeBuiltin => ("builtin").data
  | .TypeFile => ("file").data
  | .TypeUnFound => ("unfound").data

/-- The `MatchWords` of the `typesMatches` table of run.go (the map holds an
entry for every category, so it is modelled as a total function). -/
def matchWords : CommandType → List (List Char)
  | .TypeAlias => [("alias").data]
  | .TypeKeyword => [("word").data]
  | .TypeFunction => [("shell function").data, ("function").data]
  | .TypeBuiltin => [("builtin").data]
  | .TypeFile => [("file").data, ("is").data]
  | .TypeUnFound => [("not").data, ("found").data]

/-- `commandType.Eq`: case-insensitive equality with the canonical name. -/
def CommandType.Eq (ty : CommandType) (str : List Char) : Bool :=
  equalFold str ty.str

/-- `commandType.Match`: name equality (case-insensitive) or containment of
one of the category's match words (case-sensitive `strings.Contains`). -/
def CommandType.Match (ty : CommandType) (info : List Char) : Bool :=
  ty.Eq info || (matchWords ty).any (fun w => containsSub info w)

/-- The fixed priority list `types` of run.go. -/
def types : List CommandType :=
  [.TypeAlias, .TypeKeyword, .TypeFunction, .TypeBuiltin, .TypeFile, .TypeUnFound]

/-- Position of a category in the priority list `types`. -/
def typeIndex : CommandType → Nat
  | .TypeAlias => 0
  | .TypeKeyword => 1
  | .TypeFunction => 2
  | .TypeBuiltin => 3
  | .TypeFile => 4
  | .TypeUnFound => 5

/-- `Runner.getType`: first category of `types` matching the line, defaulting
to `TypeUnFound`. -/
def getType (info : List Char) : CommandType :=
  (types.find? (fun v => v.Match info)).getD .TypeUnFound

-- ### Mode handlers (parseType / parseAll / parsePath)

/-- `Runner.parseType`, as a function of the subprocess oracle. -/
def parseType (cmd : List Char) (res : Option (List Char)) :
    Except Unit (List Char × Option (List Char)) :=
  match res with
  | none => .ok (CommandType.TypeUnFound.str, none)
  | some bytes =>
    if bytes.length ≤ 0 then .ok (CommandType.TypeUnFound.str, none)
    else
      match (splitOnSub ['\n'] bytes).get? 0 with
      | none => .error ()
      | some l0 => .ok ((getType l0).str, none)

/-- `Runner.parseAll`, as a function of the subprocess oracle. -/
def parseAll (cmd : List Char) (res : Option (List Char)) :
    Except Unit (List Char × Option (List Char)) :=
  match res with
  | none => .ok (cmd ++ (" not found").data, none)
  | some bytes => .ok (bytes, none)

/-- `Runner.parsePath`, as a function of the subprocess oracle. The `.error`
results model the Go out-of-range panics of `lines[index]` and `paths[1]`. -/
def parsePath (cmd : List Char) (res : Option (List Char)) :
    Except Unit (List Char × Option (List Char)) :=
  match res with
  | none => .ok (cmd ++ (" not found").data, none)
  | some bytes =>
    let lines := splitOnSub ['\n'] bytes
    match lines.get? 0 with
    | none => .error ()
    | some l0 =>
      if getType l0 = CommandType.TypeFile then
        let index := if lines.length < 2 then 0 else 1
        match lines.get? index with
        | none => .error ()
        | some line =>
          match (splitOnSub ("is").data line).get? 1 with
          | none => .error ()
          | some seg => .ok (trimSpace seg, none)
      else .ok ([], none)

-- ### Dispatcher (shortFlagMap, short2Long, Exec)

/-- `Runner.short2Long`: lower-case the flag, then look it up in
`shortFlagMap` (`-t`/`-a`/`-p`), passing unknown flags through unchanged. -/
def short2Long (flag : List Char) : List Char :=
  if toLowerStr flag = ("-t").data then ("type").data
  else if toLowerStr flag = ("-a").data then ("all").data
  else if toLowerStr flag = ("-p").data then ("path").data
  else flag

/-- The flag normalization step of `Runner.Exec`: flags starting with `-` go
through `short2Long`, everything else is left unchanged. -/
def normalizeFlag (flag : List Char) : List Char :=
  if ['-'].isPrefixOf flag then short2Long flag else flag

/-- Error message of `Runner.check` when no lookup binary is bound. -/
def checkErrMsg : List Char := ("miss init type built env:BUILTIN_TYPE_BIN").data

/-- Observable outcome of one `Runner.Exec` call: the `Result` fields
(`output`, `err`), what was written to the output stream (`none` when the
call returned before printing), and whether a subprocess was invoked. -/
structure ExecOutcome where
  output : List Char
  err : Option (List Char)
  written : Option (List Char)
  invoked : Bool
deriving DecidableEq, Repr

/-- Handler dispatch and printing of `Runner.Exec`, after the guards and the
flag normalization. Unknown normalized flags yield the `flag undefined`
error; known ones run their handler on the subprocess oracle `inv`. The
final print appends a newline unless the output already ends in one. -/
def execDispatch (cmd : List Char) (inv : Option (List Char)) (fl : List Char) :
    Except Unit ExecOutcome :=
  let step : Except Unit (List Char × Option (List Char) × Bool) :=
    if fl = ("type").data then (parseType cmd inv).map (fun p => (p.1, p.2, true))
    else if fl = ("all").data then (parseAll cmd inv).map (fun p => (p.1, p.2, true))
    else if fl = ("path").data then (parsePath cmd inv).map (fun p => (p.1, p.2, true))
    else .ok ([], some (fl ++ (":flag undefined ").data), false)
  match step with
  | .error e => .error e
  | .ok (out, err, inv?) =>
    let w := if ['\n'].isSuffixOf out then out else out ++ ['\n']
    .ok { output := out, err := err, written := some w, invoked := inv? }

/-- `Runner.Exec bin inv flag cmd`: the `check` guard (unbound binary), the
empty-command no-op, then normalization and dispatch. `bin` is the bound
lookup binary, `inv` the subprocess oracle. -/
def Exec (bin : List Char) (inv : Option (List Char)) (flag cmd : List Char) :
    Except Unit ExecOutcome :=
  if bin = [] then
    .ok { output := [], err := some checkErrMsg, written := none, invoked := false }
  else if cmd = [] then
    .ok { output := [], err := none, written := none, invoked := false }
  else execDispatch cmd inv (normalizeFlag flag)

-- ### Runner.Bind

/-- `filepath.IsAbs` on Unix: the path starts with `/`. -/
def isAbs (path : List Char) : Bool :=
  match path with
  | '/' :: _ => true
  | _ => false

/-- Oracles for the filesystem calls of `Runner.Bind`: `abs` models
`filepath.Abs` (`.error e` when it fails with message `e`), `stat` models
`os.Stat` (`some e` when it fails with message `e`, `none` on success). -/
structure BindFS where
  abs : List Char → Except (List Char) (List Char)
  stat : List Char → Option (List Char)

/-- The mutable state of a `Runner` that `Bind` touches: the bound binary and
the lines written so far to the error stream. -/
structure RunnerState where
  bin : List Char
  errWrites : List (List Char)
deriving DecidableEq, Repr

/-- One `errLog("ERROR:", e)` line: `fmt.Fprintln` joins the operands with a
space and appends a newline. -/
def errLogLine (e : List Char) : List Char := ("ERROR:").data ++ ' ' :: e ++ ['\n']

/-- `Runner.Bind`: empty input is a no-op; an absolute path skips the whole
body (no rebinding); a relative path is resolved with `filepath.Abs` and
checked with `os.Stat`, rebinding on success and logging on failure. -/
def Runner.Bind (fs : BindFS) (r : RunnerState) (bin : List Char) : RunnerState :=
  if bin = [] then r
  else if isAbs bin = false then
    match fs.abs bin with
    | .error e => { r with errWrites := r.errWrites ++ [errLogLine e] }
    | .ok p =>
      match fs.stat p with
      | some e => { r with errWrites := r.errWrites ++ [errLogLine e] }
      | none => { r with bin := p }
  else r

-- sanity examples (concrete evaluations of the embedding)

example : getType (("ll is aliased to ls -alF").data) = CommandType.TypeAlias := by decide
example : getType (("xyz").data) = CommandType.TypeUnFound := by decide
example : splitOnSub ("is").data (("ls is /bin/ls").data) =
    [("ls ").data, (" /bin/ls").data] := by decide
example : splitOnSub ['\n'] (("a\nb\n").data) = [['a'], ['b'], []] := by decide
example : parsePath (("ls").data) (some (("ls is /bin/ls").data)) =
    .ok (("/bin/ls").data, none) := rfl

-- ### Helper lemmas about the string primitives

theorem isPrefixOf_iff (l1 l2 : List Char) : l1.isPrefixOf l2 = true ↔ l1 <+: l2 := by
  induction l1 generalizing l2 with
  | nil => simp [List.isPrefixOf]
  | cons a as ih =>
    cases l2 with
    | nil => simp [List.isPrefixOf]
    | cons b bs => simp [List.isPrefixOf, List.cons_prefix_cons, ih]

theorem containsSub_iff (s sub : List Char) : containsSub s sub = true ↔ sub <:+: s := by
  induction s with
  | nil =>
    simp [containsSub, isPrefixOf_iff, List.prefix_nil, List.infix_nil]
  | cons c rest ih =>
    simp only [containsSub, Bool.or_eq_true, isPrefixOf_iff, ih]
    exact (List.infix_cons_iff).symm

theorem toLower_infix {a b : List Char} (h : a <:+: b) : toLowerStr a <:+: toLowerStr b :=
  h.map Char.toLower

theorem equalFold_iff (a b : List Char) : equalFold a b = true ↔ toLowerStr a = toLowerStr b := by
  simp [equalFold]

theorem splitOnSubAux_ne_nil (sep : List Char) (fuel : Nat) (s : List Char) :
    splitOnSubAux sep fuel s ≠ [] := by
  cases fuel with
  | zero => simp [splitOnSubAux]
  | succ n =>
    simp only [splitOnSubAux]
    cases breakOnSub sep s with
    | none => simp
    | some p => cases p with | mk pre post => simp

theorem breakOnSub_isSome (sep : List Char) (s : List Char) (hne : sep ≠ [])
    (h : sep <:+: s) : ∃ pr po, breakOnSub sep s = some (pr, po) := by
  induction s with
  | nil =>
    exfalso
    exact hne (List.eq_nil_of_infix_nil h)
  | cons c rest ih =>
    by_cases hp : sep.isPrefixOf (c :: rest) = true
    · exact ⟨[], (c :: rest).drop sep.length, by simp [breakOnSub, hp]⟩
    · have hr : sep <:+: rest := by
        rcases (List.infix_cons_iff).mp h with h1 | h2
        · exact absurd ((isPrefixOf_iff sep (c :: rest)).mpr h1) hp
        · exact h2
      obtain ⟨pr, po, hb⟩ := ih hr
      refine ⟨c :: pr, po, ?_⟩
      simp [breakOnSub, hp, hb]

theorem splitOnSub_length_ge_two (sep s : List Char) (hne : sep ≠ [])
    (h : sep <:+: s) : 2 ≤ (splitOnSub sep s).length := by
  obtain ⟨pr, po, hb⟩ := breakOnSub_isSome sep s hne h
  have hx : splitOnSub sep s = pr :: splitOnSubAux sep (s.length) po := by
    simp [splitOnSub, splitOnSubAux, hb]
  rw [hx]
  have := splitOnSubAux_ne_nil sep (s.length) po
  have hpos : 0 < (splitOnSubAux sep (s.length) po).length := List.length_pos.mpr this
  simp only [List.length_cons]
  omega

theorem suffix_singleton_append (c : Char) (a b : List Char) (hb : b ≠ []) :
    [c].isSuffixOf (a ++ b) = [c].isSuffixOf b := by
  obtain ⟨x, xs, hx⟩ : ∃ x xs, b.reverse = x :: xs := by
    cases hbr : b.reverse with
    | nil => exact absurd (by simpa using congrArg List.reverse hbr) hb
    | cons x xs => exact ⟨x, xs, rfl⟩
  simp [List.isSuffixOf, List.reverse_append, hx, List.isPrefixOf]

-- ### Helper lemmas about the classifier

theorem mem_types (c : CommandType) : c ∈ types := by cases c <;> decide

theorem names_lower : ∀ c ∈ types, toLowerStr (CommandType.str c) = CommandType.str c := by
  decide

theorem names_inj : ∀ c ∈ types, ∀ c' ∈ types,
    equalFold (CommandType.str c) (CommandType.str c') = true → c = c' := by
  decide

theorem words_lower : ∀ c ∈ types, ∀ w ∈ matchWords c, toLowerStr w = w := by
  decide

theorem phrase_owner : ∀ c ∈ types, ∀ c' ∈ types, ∀ w ∈ matchWords c,
    containsSub (CommandType.str c') w = true → c = c' := by
  decide

theorem getType_first_match (info : List Char) (c : CommandType)
    (hc : CommandType.Match c info = true)
    (hmin : ∀ c', typeIndex c' < typeIndex c → CommandType.Match c' info = false) :
    getType info = c := by
  cases c with
  | TypeAlias =>
    simp [getType, types, List.find?, hc]
  | TypeKeyword =>
    have h0 := hmin CommandType.TypeAlias (by decide)
    simp [getType, types, List.find?, h0, hc]
  | TypeFunction =>
    have h0 := hmin CommandType.TypeAlias (by decide)
    have h1 := hmin CommandType.TypeKeyword (by decide)
    simp [getType, types, List.find?, h0, h1, hc]
  | TypeBuiltin =>
    have h0 := hmin CommandType.TypeAlias (by decide)
    have h1 := hmin CommandType.TypeKeyword (by decide)
    have h2 := hmin CommandType.TypeFunction (by decide)
    simp [getType, types, List.find?, h0, h1, h2, hc]
  | TypeFile =>
    have h0 := hmin CommandType.TypeAlias (by decide)
    have h1 := hmin CommandType.TypeKeyword (by decide)
    have h2 := hmin CommandType.TypeFunction (by decide)
    have h3 := hmin CommandType.TypeBuiltin (by decide)
    simp [getType, types, List.find?, h0, h1, h2, h3, hc]
  | TypeUnFound =>
    have h0 := hmin CommandType.TypeAlias (by decide)
    have h1 := hmin CommandType.TypeKeyword (by decide)
    have h2 := hmin CommandType.TypeFunction (by decide)
    have h3 := hmin CommandType.TypeBuiltin (by decide)
    have h4 := hmin CommandType.TypeFile (by decide)
    simp [getType, types, List.find?, h0, h1, h2, h3, h4, hc]

-- ### Claim C1 (corrected): match words are tested case-sensitively

/-- C1 counterexample: the line "ALIASED" contains a casing of the match word
"alias" of category alias, yet `getType` classifies it as unfound, not alias —
`strings.Contains` in `commandType.Match` is case-sensitive, so the claim that
match phrases are recognized in any casing is false. -/
theorem getType_uppercase_phrase_unmatched :
    (∃ w : List Char, toLowerStr w = ("alias").data ∧
      containsSub (("ALIASED").data) w = true) ∧
    getType (("ALIASED").data) = CommandType.TypeUnFound ∧
    getType (("ALIASED").data) ≠ CommandType.TypeAlias :=
  ⟨⟨("ALIAS").data, by decide, by decide⟩, by decide, by decide⟩

/-- C1 (amended): classification is first-match-wins over the fixed priority
order, where a category matches a line when its canonical name equals the line
case-insensitively or one of its match words occurs in the line as a
case-sensitive (not case-insensitive) substring: if category `c` matches and
every earlier category matches in neither way, `getType` returns `c`. -/
theorem getType_first_match_eq_or_contains (info : List Char) (c : CommandType)
    (hc : equalFold info (CommandType.str c) = true ∨
      ∃ w ∈ matchWords c, containsSub info w = true)
    (hmin : ∀ c', typeIndex c' < typeIndex c →
      equalFold info (CommandType.str c') = false ∧
      ∀ w ∈ matchWords c', containsSub info w = false) :
    getType info = c := by
  apply getType_first_match
  · rcases hc with h | ⟨w, hw, hcont⟩
    · simp [CommandType.Match, CommandType.Eq, h]
    · simp only [CommandType.Match, Bool.or_eq_true, List.any_eq_true]
      exact Or.inr ⟨w, hw, hcont⟩
  · intro c' hlt
    obtain ⟨he, hws⟩ := hmin c' hlt
    have hany : (matchWords c').any (fun w => containsSub info w) = false := by
      cases hq : (matchWords c').any (fun w => containsSub info w) with
      | false => rfl
      | true =>
        obtain ⟨w, hw, hcont⟩ := List.any_eq_true.mp hq
        rw [hws w hw] at hcont
        exact absurd hcont (by simp)
    simp [CommandType.Match, CommandType.Eq, he, hany]

/-- C1 witness: the line "ls is aliased to ls -G" contains the match word
"alias" of the first category, so it classifies as alias. -/
theorem getType_first_match_eq_or_contains_witness :
    getType (("ls is aliased to ls -G").data) = CommandType.TypeAlias :=
  getType_first_match_eq_or_contains _ _
    (Or.inr ⟨("alias").data, by decide, by decide⟩)
    (fun c' h => absurd h (Nat.not_lt_zero _))

-- ### Claim C6 (confirmed): category names classify to themselves in any casing

/-- C6: for every line that equals a category's canonical name up to ASCII
case, `getType` returns exactly that category; e.g. "BUILTIN" classifies as
builtin. -/
theorem getType_of_equalFold_name (s : List Char) (c : CommandType)
    (h : equalFold s (CommandType.str c) = true) : getType s = c := by
  have hlow : toLowerStr s = CommandType.str c := by
    rw [(equalFold_iff _ _).mp h, names_lower c (mem_types c)]
  apply getType_first_match
  · simp [CommandType.Match, CommandType.Eq, h]
  · intro c' hlt
    have hne : c' ≠ c := fun e => by subst e; exact absurd hlt (lt_irrefl _)
    have he : equalFold s (CommandType.str c') = false := by
      cases hq : equalFold s (CommandType.str c') with
      | false => rfl
      | true =>
        refine absurd (names_inj c' (mem_types c') c (mem_types c) ?_) hne
        rw [equalFold_iff, ← (equalFold_iff _ _).mp hq, (equalFold_iff _ _).mp h]
    have hany : (matchWords c').any (fun w => containsSub s w) = false := by
      cases hq : (matchWords c').any (fun w => containsSub s w) with
      | false => rfl
      | true =>
        obtain ⟨w, hw, hcont⟩ := List.any_eq_true.mp hq
        have hinf : toLowerStr w <:+: toLowerStr s :=
          toLower_infix ((containsSub_iff _ _).mp hcont)
        rw [words_lower c' (mem_types c') w hw, hlow] at hinf
        exact absurd
          (phrase_owner c' (mem_types c') c (mem_types c) w hw
            ((containsSub_iff _ _).mpr hinf)) hne
    simp [CommandType.Match, CommandType.Eq, he, hany]

/-- C6 witness: `getType "BUILTIN"` is builtin. -/
theorem getType_of_equalFold_name_witness :
    getType (("BUILTIN").data) = CommandType.TypeBuiltin :=
  getType_of_equalFold_name _ _ (by decide)

-- ### Claim C7 (confirmed): fixed priority order among word matches

/-- C7: classification is first-match-wins in the fixed order alias, keyword,
function, builtin, file, unfound: if a line contains a match word of category
`c` and no match word of any earlier category, `getType` returns `c` — in
particular a line containing both "alias" and "function" resolves to alias. -/
theorem getType_phrase_priority (info : List Char) (c : CommandType)
    (hc : ∃ w ∈ matchWords c, containsSub info w = true)
    (hmin : ∀ c', typeIndex c' < typeIndex c →
      ∀ w ∈ matchWords c', containsSub info w = false) :
    getType info = c := by
  obtain ⟨w, hw, hcont⟩ := hc
  apply getType_first_match
  · simp only [CommandType.Match, Bool.or_eq_true, List.any_eq_true]
    exact Or.inr ⟨w, hw, hcont⟩
  · intro c' hlt
    have hne : c' ≠ c := fun e => by subst e; exact absurd hlt (lt_irrefl _)
    have he : equalFold info (CommandType.str c') = false := by
      cases hq : equalFold info (CommandType.str c') with
      | false => rfl
      | true =>
        have h1 : toLowerStr info = CommandType.str c' := by
          rw [(equalFold_iff _ _).mp hq, names_lower c' (mem_types c')]
        have hinf : toLowerStr w <:+: toLowerStr info :=
          toLower_infix ((containsSub_iff _ _).mp hcont)
        rw [words_lower c (mem_types c) w hw, h1] at hinf
        exact absurd
          (phrase_owner c (mem_types c) c' (mem_types c') w hw
            ((containsSub_iff _ _).mpr hinf)).symm hne
    have hany : (matchWords c').any (fun v => containsSub info v) = false := by
      cases hq : (matchWords c').any (fun v => containsSub info v) with
      | false => rfl
      | true =>
        obtain ⟨v, hv, hvcont⟩ := List.any_eq_true.mp hq
        rw [hmin c' hlt v hv] at hvcont
        exact absurd hvcont (by simp)
    simp [CommandType.Match, CommandType.Eq, he, hany]

/-- C7 witness: "ll: aliased function wrapper" contains match words of both
alias and function and resolves to alias, the earlier category. -/
theorem getType_phrase_priority_witness :
    getType (("ll: aliased function wrapper").data) = CommandType.TypeAlias :=
  getType_phrase_priority _ _
    ⟨("alias").data, by decide, by decide⟩
    (fun c' h => absurd h (Nat.not_lt_zero _))

-- ### Evaluation lemmas for the dispatcher

theorem execDispatch_path (cmd : List Char) (inv : Option (List Char)) :
    execDispatch cmd inv (("path").data) =
      match parsePath cmd inv with
      | .error e => .error e
      | .ok (out, err) =>
        .ok { output := out, err := err,
              written := some (if ['\n'].isSuffixOf out then out else out ++ ['\n']),
              invoked := true } := by
  cases hp : parsePath cmd inv with
  | error e => simp only [execDispatch, hp]; rfl
  | ok p => cases p with | mk out err => simp only [execDispatch, hp]; rfl

theorem execDispatch_all (cmd : List Char) (inv : Option (List Char)) :
    execDispatch cmd inv (("all").data) =
      match parseAll cmd inv with
      | .error e => .error e
      | .ok (out, err) =>
        .ok { output := out, err := err,
              written := some (if ['\n'].isSuffixOf out then out else out ++ ['\n']),
              invoked := true } := by
  cases hp : parseAll cmd inv with
  | error e => simp only [execDispatch, hp]; rfl
  | ok p => cases p with | mk out err => simp only [execDispatch, hp]; rfl

theorem exec_flag_congr (bin : List Char) (inv : Option (List Char)) (f g cmd : List Char)
    (h : normalizeFlag f = normalizeFlag g) :
    Exec bin inv f cmd = Exec bin inv g cmd := by
  simp only [Exec, h]

-- ### Claim C2 (corrected): path-mode lookup failure yields "<cmd> not found"

/-- C2 counterexample: with a failing invocation, path mode outputs
"ls not found", not the empty string the claim requires. -/
theorem exec_path_failure_not_empty :
    Exec (("/usr/bin/type").data) none (("path").data) (("ls").data) =
      Except.ok { output := ("ls not found").data, err := none,
                  written := some (("ls not found\n").data), invoked := true } ∧
    ("ls not found").data ≠ ([] : List Char) :=
  ⟨rfl, by decide⟩

/-- C2 (amended): in path mode a lookup failure (subprocess fails to execute
or exits with an error) is absorbed with no error, but the output is the
fallback string "<cmd> not found" — the same fallback as all mode — rather
than an empty string. -/
theorem exec_path_failure_not_found (bin cmd : List Char)
    (h1 : bin ≠ []) (h2 : cmd ≠ []) :
    Exec bin none (("path").data) cmd =
      Except.ok { output := cmd ++ (" not found").data, err := none,
                  written := some (cmd ++ (" not found").data ++ ['\n']),
                  invoked := true } := by
  have hw : ['\n'].isSuffixOf (cmd ++ (" not found").data) = false := by
    rw [suffix_singleton_append '\n' cmd ((" not found").data) (by decide)]
    decide
  simp only [Exec]
  rw [if_neg h1, if_neg h2,
    show normalizeFlag (("path").data) = ("path").data from by decide,
    execDispatch_path,
    show parsePath cmd none = Except.ok (cmd ++ (" not found").data, none) from rfl]
  simp [hw]

/-- C2 witness: instantiated at the bound default binary and command "gotype". -/
theorem exec_path_failure_not_found_witness :
    Exec (("/usr/bin/type").data) none (("path").data) (("gotype").data) =
      Except.ok { output := ("gotype not found").data, err := none,
                  written := some (("gotype not found\n").data), invoked := true } :=
  exec_path_failure_not_found _ _ (by decide) (by decide)

-- ### Claim C5 (corrected): all-mode empty output is returned verbatim

/-- C5 counterexample: a successful invocation with empty output makes all
mode return the empty string verbatim, not the "<cmd> not found" fallback the
claim requires. -/
theorem exec_all_empty_output_verbatim :
    Exec (("/usr/bin/type").data) (some []) (("all").data) (("ls").data) =
      Except.ok { output := [], err := none, written := some ['\n'],
                  invoked := true } ∧
    ([] : List Char) ≠ ("ls").data ++ (" not found").data :=
  ⟨rfl, by decide⟩

/-- C5 (amended): in all mode only a failed invocation (subprocess fails to
execute or exits with an error) yields the fallback "<cmd> not found"; a
successful run is returned verbatim, so empty successful output yields empty
output, not the fallback. -/
theorem exec_all_failure_fallback (bin cmd : List Char)
    (h1 : bin ≠ []) (h2 : cmd ≠ []) :
    Exec bin none (("all").data) cmd =
      Except.ok { output := cmd ++ (" not found").data, err := none,
                  written := some (cmd ++ (" not found").data ++ ['\n']),
                  invoked := true } ∧
    Exec bin (some []) (("all").data) cmd =
      Except.ok { output := [], err := none, written := some ['\n'],
                  invoked := true } := by
  have hw : ['\n'].isSuffixOf (cmd ++ (" not found").data) = false := by
    rw [suffix_singleton_append '\n' cmd ((" not found").data) (by decide)]
    decide
  constructor
  · simp only [Exec]
    rw [if_neg h1, if_neg h2,
      show normalizeFlag (("all").data) = ("all").data from by decide,
      execDispatch_all,
      show parseAll cmd none = Except.ok (cmd ++ (" not found").data, none) from rfl]
    simp [hw]
  · simp only [Exec]
    rw [if_neg h1, if_neg h2,
      show normalizeFlag (("all").data) = ("all").data from by decide,
      execDispatch_all,
      show parseAll cmd (some []) = Except.ok (([] : List Char), none) from rfl]
    simp [show ['\n'].isSuffixOf ([] : List Char) = false from by decide]

/-- C5 witness: instantiated at the bound default binary and command "gotype". -/
theorem exec_all_failure_fallback_witness :
    Exec (("/usr/bin/type").data) none (("all").data) (("gotype").data) =
      Except.ok { output := ("gotype not found").data, err := none,
                  written := some (("gotype not found\n").data), invoked := true } ∧
    Exec (("/usr/bin/type").data) (some []) (("all").data) (("gotype").data) =
      Except.ok { output := [], err := none, written := some ['\n'],
                  invoked := true } :=
  exec_all_failure_fallback _ _ (by decide) (by decide)

-- ### Claim C3 (corrected): Bind never rebinds an absolute path

/-- C3 counterexample: binding the absolute, existing path "/bin/ls" leaves
the previous binding "/usr/bin/type" intact (the absolute branch of `Bind`
skips rebinding entirely), contradicting the claim that an absolute existing
path rebinds. -/
theorem bind_absolute_existing_no_rebind :
    (Runner.Bind
      { abs := fun s => Except.ok s, stat := fun _ => none }
      { bin := ("/usr/bin/type").data, errWrites := [] }
      (("/bin/ls").data)).bin = ("/usr/bin/type").data ∧
    (Runner.Bind
      { abs := fun s => Except.ok s, stat := fun _ => none }
      { bin := ("/usr/bin/type").data, errWrites := [] }
      (("/bin/ls").data)).bin ≠ ("/bin/ls").data ∧
    isAbs (("/bin/ls").data) = true ∧
    BindFS.stat { abs := fun s => Except.ok s, stat := fun _ => none }
      (("/bin/ls").data) = none :=
  ⟨rfl, by decide, rfl, rfl⟩

/-- C3 (amended): for every non-empty path, `Bind` is total (never panics)
and behaves as follows: an absolute path is a complete no-op (no rebinding,
no validation, no logging); a relative path that resolves to an absolute path
naming an existing file rebinds to that resolution; any other relative path
leaves the binding intact and writes an ERROR line to the error stream. -/
theorem bind_characterization (fs : BindFS) (r : RunnerState) (bin : List Char)
    (h : bin ≠ []) :
    (isAbs bin = true → Runner.Bind fs r bin = r) ∧
    (isAbs bin = false → ∀ p, fs.abs bin = Except.ok p → fs.stat p = none →
      Runner.Bind fs r bin = { r with bin := p }) ∧
    (isAbs bin = false → ∀ e, fs.abs bin = Except.error e →
      Runner.Bind fs r bin = { r with errWrites := r.errWrites ++ [errLogLine e] }) ∧
    (isAbs bin = false → ∀ p e, fs.abs bin = Except.ok p → fs.stat p = some e →
      Runner.Bind fs r bin = { r with errWrites := r.errWrites ++ [errLogLine e] }) := by
  refine ⟨?_, ?_, ?_, ?_⟩
  · intro ha
    simp [Runner.Bind, h, ha]
  · intro ha p hp hs
    simp [Runner.Bind, h, ha, hp, hs]
  · intro ha e he
    simp [Runner.Bind, h, ha, he]
  · intro ha p e hp hs
    simp [Runner.Bind, h, ha, hp, hs]

/-- C3 witness: a relative path resolving to an existing absolute path
rebinds the runner to that path. -/
theorem bind_characterization_witness :
    Runner.Bind
      { abs := fun _ => Except.ok (("/opt/gotype/type").data), stat := fun _ => none }
      { bin := ("/usr/bin/type").data, errWrites := [] }
      (("type").data) =
      { bin := ("/opt/gotype/type").data, errWrites := [] } :=
  (bind_characterization
    { abs := fun _ => Except.ok (("/opt/gotype/type").data), stat := fun _ => none }
    { bin := ("/usr/bin/type").data, errWrites := [] }
    (("type").data) (by decide)).2.1 (by decide) (("/opt/gotype/type").data) rfl rfl

-- ### Claim C8 (confirmed): empty command name is a silent no-op

/-- C8: with a bound lookup binary, `Exec` with an empty command name returns
an empty result with no error, writes nothing to the output stream, and
invokes no subprocess — for every mode flag. -/
theorem exec_empty_cmd_noop (bin : List Char) (inv : Option (List Char))
    (flag : List Char) (h : bin ≠ []) :
    Exec bin inv flag [] =
      Except.ok { output := [], err := none, written := none, invoked := false } := by
  simp [Exec, h]

/-- C8 witness: type mode with the default binary and an empty command. -/
theorem exec_empty_cmd_noop_witness :
    Exec (("/usr/bin/type").data) none (("type").data) [] =
      Except.ok { output := [], err := none, written := none, invoked := false } :=
  exec_empty_cmd_noop _ _ _ (by decide)

-- ### Claim C9 (confirmed): unknown normalized modes fail without invoking

/-- C9: with a bound binary and non-empty command, any flag whose
normalization is none of type, all, path yields an error result whose message
contains "flag undefined", and no subprocess is invoked. -/
theorem exec_undefined_flag (bin : List Char) (inv : Option (List Char))
    (flag cmd : List Char) (h1 : bin ≠ []) (h2 : cmd ≠ [])
    (h3 : normalizeFlag flag ≠ ("type").data)
    (h4 : normalizeFlag flag ≠ ("all").data)
    (h5 : normalizeFlag flag ≠ ("path").data) :
    Exec bin inv flag cmd =
      Except.ok { output := [],
                  err := some (normalizeFlag flag ++ (":flag undefined ").data),
                  written := some ['\n'], invoked := false } ∧
    containsSub (normalizeFlag flag ++ (":flag undefined ").data)
      (("flag undefined").data) = true := by
  constructor
  · simp only [Exec]
    rw [if_neg h1, if_neg h2]
    simp only [execDispatch]
    rw [if_neg h3, if_neg h4, if_neg h5]
    simp [show ['\n'].isSuffixOf ([] : List Char) = false from by decide]
  · rw [containsSub_iff]
    exact (show (("flag undefined").data) <:+: ((":flag undefined ").data) from
      by decide).trans (List.suffix_append _ _).isInfix

/-- C9 witness: the unknown flag "bogus" with a bound binary and command
"ls". -/
theorem exec_undefined_flag_witness :
    Exec (("/usr/bin/type").data) none (("bogus").data) (("ls").data) =
      Except.ok { output := [],
                  err := some (normalizeFlag (("bogus").data) ++
                    ((":flag undefined ").data)),
                  written := some ['\n'], invoked := false } ∧
    containsSub (normalizeFlag (("bogus").data) ++ ((":flag undefined ").data))
      (("flag undefined").data) = true :=
  exec_undefined_flag _ _ _ _ (by decide) (by decide) (by decide) (by decide) (by decide)

-- ### Claim C10 (confirmed): short flags are recognized case-insensitively

/-- C10: the short flags are lower-cased before the short-to-long lookup, so
"-T", "-A", "-P" (and their lowercase forms) dispatch exactly as the long
modes type, all, path, for every binary, subprocess outcome and command. -/
theorem exec_short_flag_case_insensitive (bin : List Char)
    (inv : Option (List Char)) (cmd : List Char) :
    Exec bin inv (("-T").data) cmd = Exec bin inv (("type").data) cmd ∧
    Exec bin inv (("-t").data) cmd = Exec bin inv (("type").data) cmd ∧
    Exec bin inv (("-A").data) cmd = Exec bin inv (("all").data) cmd ∧
    Exec bin inv (("-a").data) cmd = Exec bin inv (("all").data) cmd ∧
    Exec bin inv (("-P").data) cmd = Exec bin inv (("path").data) cmd ∧
    Exec bin inv (("-p").data) cmd = Exec bin inv (("path").data) cmd :=
  ⟨exec_flag_congr _ _ _ _ _ (by decide), exec_flag_congr _ _ _ _ _ (by decide),
   exec_flag_congr _ _ _ _ _ (by decide), exec_flag_congr _ _ _ _ _ (by decide),
   exec_flag_congr _ _ _ _ _ (by decide), exec_flag_congr _ _ _ _ _ (by decide)⟩

-- ### Claim C4 (corrected): path mode can panic on a file line without "is"

theorem splitOnSub_ne_nil (sep s : List Char) : splitOnSub sep s ≠ [] :=
  splitOnSubAux_ne_nil sep (s.length + 1) s

/-- C4 counterexample: the raw output "FILE" is classified as file (by
case-insensitive name equality) but its selected line contains no "is", so
splitting yields a single segment and the access `paths[1]` is out of range —
`parsePath` panics, refuting the claim that the handler is total. -/
theorem parsePath_file_line_without_is_panics :
    parsePath (("ls").data) (some (("FILE").data)) = Except.error () ∧
    getType (("FILE").data) = CommandType.TypeFile :=
  ⟨rfl, by decide⟩

/-- C4 (amended): `parsePath` returns a string result with no error whenever
the invocation failed, the first line is not classified as file, or the
selected line (the second line, or the first when the output has fewer than
two lines) contains the token "is"; when a file-classified output's selected
line lacks "is", the split yields one segment and the indexing panics. -/
theorem parsePath_ok_when_selected_line_contains_is (cmd : List Char)
    (res : Option (List Char))
    (h : ∀ bytes, res = some bytes →
      ∀ l0, (splitOnSub ['\n'] bytes).get? 0 = some l0 →
        getType l0 = CommandType.TypeFile →
        ∀ line, (splitOnSub ['\n'] bytes).get?
            (if (splitOnSub ['\n'] bytes).length < 2 then 0 else 1) = some line →
          containsSub line (("is").data) = true) :
    ∃ out, parsePath cmd res = Except.ok (out, none) := by
  cases res with
  | none => exact ⟨cmd ++ (" not found").data, rfl⟩
  | some bytes =>
    obtain ⟨l0, t, hl⟩ : ∃ l0 t, splitOnSub ['\n'] bytes = l0 :: t := by
      cases hq : splitOnSub ['\n'] bytes with
      | nil => exact absurd hq (splitOnSub_ne_nil ['\n'] bytes)
      | cons a b => exact ⟨a, b, rfl⟩
    by_cases hf : getType l0 = CommandType.TypeFile
    · cases t with
      | nil =>
        have hline : containsSub l0 (("is").data) = true :=
          h bytes rfl l0 (by rw [hl]; rfl) hf l0 (by rw [hl]; rfl)
        have hinf : ("is").data <:+: l0 := (containsSub_iff _ _).mp hline
        have hlen := splitOnSub_length_ge_two (("is").data) l0 (by decide) hinf
        obtain ⟨seg, hseg⟩ : ∃ seg, (splitOnSub (("is").data) l0).get? 1 = some seg :=
          ⟨(splitOnSub (("is").data) l0).get ⟨1, by omega⟩, List.get?_eq_get (by omega)⟩
        refine ⟨trimSpace seg, ?_⟩
        rw [List.get?_eq_getElem?] at hseg
        simp only [parsePath, hl]
        simp [List.get?, hf, hseg]
      | cons a t' =>
        have hnl : ¬ ((l0 :: a :: t').length < 2) := by
          simp only [List.length_cons]
          omega
        have hline : containsSub a (("is").data) = true :=
          h bytes rfl l0 (by rw [hl]; rfl) hf a (by rw [hl, if_neg hnl]; rfl)
        have hinf : ("is").data <:+: a := (containsSub_iff _ _).mp hline
        have hlen := splitOnSub_length_ge_two (("is").data) a (by decide) hinf
        obtain ⟨seg, hseg⟩ : ∃ seg, (splitOnSub (("is").data) a).get? 1 = some seg :=
          ⟨(splitOnSub (("is").data) a).get ⟨1, by omega⟩, List.get?_eq_get (by omega)⟩
        refine ⟨trimSpace seg, ?_⟩
        rw [List.get?_eq_getElem?] at hseg
        simp only [parsePath, hl]
        rw [if_neg hnl]
        simp [List.get?, hf, hseg]
    · refine ⟨[], ?_⟩
      simp only [parsePath, hl]
      simp [List.get?, hf]

/-- C4 witness: the single-line file output "ls is /bin/ls" parses without
panicking. -/
theorem parsePath_ok_when_selected_line_contains_is_witness :
    ∃ out, parsePath (("ls").data) (some (("ls is /bin/ls").data)) =
      Except.ok (out, none) :=
  parsePath_ok_when_selected_line_contains_is _ _ (by
    intro bytes hb
    cases hb
    intro l0 hl0
    have h0 : some (("ls is /bin/ls").data) = some l0 := hl0
    cases h0
    intro hf line hline
    have h1 : some (("ls is /bin/ls").data) = some line := hline
    cases h1
    decide)
